import Mathlib

/-!
Verification development for the ToDoExample repository.

Two parts:

* `SyncCore` — the multi-user sync and conflict-resolution protocol. This
  subsystem is described only in the repository's design documents
  (`docs/plans/2026-01-09-fastapi-backend-design.md`, spec sections 2–7); no
  implementation exists in the source tree, so every definition in this
  namespace is modelled from the specification text.

* `ClientApp` — the browser todo client (`app.js` and the toolbar variant),
  embedded from the JavaScript source: storage-level todo lists, add/toggle/
  remove, the delete-undo buffer, and `readTodos` over raw storage contents.
-/

namespace SyncCore

/-- Modelled from the spec: the Todo Record data model (spec section 3).
The sync backend is not present as code in the repository; field set and
meanings follow the specification. Identifiers and timestamps are opaque
values, modelled as naturals. -/
structure Record where
  id : Nat
  ownerId : Nat
  text : String
  completed : Bool
  version : Nat
  createdAt : Nat
  updatedAt : Nat
  deletedAt : Option Nat
  deriving DecidableEq

/-- Modelled from the spec: a client-proposed record in a sync batch
(spec section 3, "Sync Batch Request"): the client's field values together
with the version it last observed (absent for a creation) and an optional
id (absent when the client asks the server to assign one). -/
structure ClientRecord where
  id : Option Nat
  text : String
  completed : Bool
  version : Option Nat
  deletedAt : Option Nat
  deriving DecidableEq

/-- Modelled from the spec: the Conflict Resolver's decision
(spec section 4.2): accept with the record to store, reject as a version
conflict carrying the authoritative server record, reject as an
authorization failure, or reject as invalid input. -/
inductive Decision where
  | accept (r : Record)
  | conflict (server : Record)
  | authReject (server : Record)
  | invalid
  deriving DecidableEq

/-- Modelled from the spec: applying the client's field changes onto the
stored record (spec section 4.2 step 2): text, completed and the soft-delete
marker come from the client, the version is incremented by exactly 1, and
updatedAt is set to the current time; id, ownerId and createdAt are kept. -/
def applyChanges (now : Nat) (c : ClientRecord) (s : Record) : Record :=
  { s with
    text := c.text
    completed := c.completed
    deletedAt := c.deletedAt
    version := s.version + 1
    updatedAt := now }

/-- Modelled from the spec: creation of a record (spec section 4.2 step 1):
a new id is assigned when absent, the version starts at 1, and both
timestamps are the current time. -/
def createRecord (now nextId ownerId : Nat) (c : ClientRecord) : Record :=
  { id := c.id.getD nextId
    ownerId := ownerId
    text := c.text
    completed := c.completed
    version := 1
    createdAt := now
    updatedAt := now
    deletedAt := c.deletedAt }

/-- Modelled from the spec: the Conflict Resolver decision procedure
(spec section 4.2). With no stored record, a proposal with absent version or
version 1 is a creation; with a stored record, an ownership mismatch is an
authorization reject, a matching believed version is an accepted update, and
any other believed version is a surfaced conflict that carries the
authoritative server record and never mutates it. -/
def resolve (now nextId ownerId : Nat) (c : ClientRecord) (s : Option Record) :
    Decision :=
  match s with
  | none =>
    match c.version with
    | none => .accept (createRecord now nextId ownerId c)
    | some v =>
      if v = 1 then .accept (createRecord now nextId ownerId c) else .invalid
  | some srec =>
    if srec.ownerId = ownerId then
      match c.version with
      | some v =>
        if v = srec.version then .accept (applyChanges now c srec)
        else .conflict srec
      | none => .conflict srec
    else .authReject srec

/-- Modelled from the spec: the Item Store contents, a collection of
records (spec section 4.1). -/
abbrev Store := List Record

/-- Modelled from the spec: the Item Store `get` operation
(spec section 4.1). -/
def getRecord (st : Store) (id : Nat) : Option Record :=
  st.find? (fun r => r.id = id)

/-- Modelled from the spec: the Item Store `put` operation, an atomic
upsert (spec section 4.1): replaces the record with the same id if present,
otherwise inserts. -/
def put (st : Store) (r : Record) : Store :=
  if st.any (fun x => x.id = r.id) then
    st.map (fun x => if x.id = r.id then r else x)
  else st ++ [r]

/-- Modelled from the spec: the ordering of `listUpdatedSince` results
(spec section 4.1): by updatedAt ascending, ties broken by id ascending. -/
def recLE (a b : Record) : Prop :=
  a.updatedAt < b.updatedAt ∨ (a.updatedAt = b.updatedAt ∧ a.id ≤ b.id)

instance : DecidableRel recLE := fun a b => by
  unfold recLE
  infer_instance

instance : IsTotal Record recLE :=
  ⟨by
    intro a b
    unfold recLE
    omega⟩

instance : IsTrans Record recLE :=
  ⟨by
    intro a b c h1 h2
    unfold recLE at h1 h2 ⊢
    omega⟩

/-- Modelled from the spec: the Item Store `listUpdatedSince` operation
(spec section 4.1): all records (including soft-deleted ones) of the owner
whose updatedAt is strictly greater than the timestamp, excluding the given
ids, ordered by updatedAt ascending with ties broken by id ascending. -/
def listUpdatedSince (st : Store) (ownerId ts : Nat) (excludeIds : List Nat) :
    List Record :=
  List.insertionSort recLE
    (st.filter (fun r =>
      decide (r.ownerId = ownerId) && decide (ts < r.updatedAt) &&
        decide (r.id ∉ excludeIds)))

/-- Modelled from the spec: the Sync Coordinator's view of the server state:
the Item Store contents plus the next fresh id for creations. -/
structure CoordState where
  store : Store
  nextId : Nat
  deriving DecidableEq

/-- Modelled from the spec: the per-item outcome of batch processing
(spec sections 4.3 and 7): applied, surfaced conflict, authorization
reject, validation reject, or per-record storage failure. -/
inductive Outcome where
  | applied (r : Record)
  | conflicted (server : Record)
  | authRejected (server : Record)
  | invalidItem
  | storageFailed (r : Record)
  deriving DecidableEq

/-- Modelled from the spec: the stored record a proposal refers to: none for
a proposal without id, otherwise the store lookup (spec section 4.2). -/
def lookupProposal (st : Store) (c : ClientRecord) : Option Record :=
  match c.id with
  | none => none
  | some i => getRecord st i

/-- Modelled from the spec: processing one batch item (spec section 4.3
steps 2–3): resolve against the stored record; on accept, persist via `put`
unless the store fails this put, in which case the item is reported as a
per-record storage failure and the state is left unchanged. -/
def processItem (now ownerId : Nat) (putOk : Record → Bool) (st : CoordState)
    (c : ClientRecord) : CoordState × Outcome :=
  match resolve now st.nextId ownerId c (lookupProposal st.store c) with
  | .accept r =>
    if putOk r then
      ({ store := put st.store r, nextId := st.nextId + 1 }, .applied r)
    else (st, .storageFailed r)
  | .conflict s => (st, .conflicted s)
  | .authReject s => (st, .authRejected s)
  | .invalid => (st, .invalidItem)

/-- Modelled from the spec: processing a batch in submission order
(spec section 4.3 step 2), every item processed independently; one outcome
per item. -/
def processBatch (now ownerId : Nat) (putOk : Record → Bool) :
    CoordState → List ClientRecord → CoordState × List Outcome
  | st, [] => (st, [])
  | st, c :: rest =>
    let r1 := processItem now ownerId putOk st c
    let r2 := processBatch now ownerId putOk r1.1 rest
    (r2.1, r1.2 :: r2.2)

/-- Modelled from the spec: the ids accepted in a batch (spec section 3,
"Sync Batch Response", `applied`). -/
def appliedIds (os : List Outcome) : List Nat :=
  os.filterMap (fun o =>
    match o with
    | .applied r => some r.id
    | _ => none)

/-- Modelled from the spec: the conflict reports of a batch: rejected ids
paired with the authoritative server record (spec section 3). -/
def conflictReports (os : List Outcome) : List (Nat × Record) :=
  os.filterMap (fun o =>
    match o with
    | .conflicted s => some (s.id, s)
    | _ => none)

/-- Modelled from the spec: the Sync Batch Response (spec section 3). -/
structure SyncResponse where
  applied : List Nat
  conflicts : List (Nat × Record)
  serverChanges : List Record
  syncTimestamp : Nat
  deriving DecidableEq

/-- Modelled from the spec: batch-wide client errors (spec section 4.3
step 1 and section 7, ValidationError for an oversized batch). -/
inductive SyncError where
  | oversizedBatch
  deriving DecidableEq

/-- Modelled from the spec: the Sync Coordinator (spec section 4.3).
`now` is the server time captured at the start of mutation application; it
stamps every mutation of this call and is returned as `syncTimestamp`.
Oversized batches are rejected before any store interaction; otherwise the
batch is processed in order and `serverChanges` is computed from the
post-mutation store with the just-applied ids excluded. -/
def sync (now ownerId : Nat) (putOk : Record → Bool) (maxBatch : Nat)
    (st : CoordState) (batch : List ClientRecord) (lastSync : Nat) :
    Except SyncError (SyncResponse × CoordState) :=
  if batch.length > maxBatch then .error .oversizedBatch
  else
    .ok
      ({ applied := appliedIds (processBatch now ownerId putOk st batch).2
         conflicts := conflictReports (processBatch now ownerId putOk st batch).2
         serverChanges :=
           listUpdatedSince (processBatch now ownerId putOk st batch).1.store
             ownerId lastSync
             (appliedIds (processBatch now ownerId putOk st batch).2)
         syncTimestamp := now },
        (processBatch now ownerId putOk st batch).1)

/-- A three-record store for the partial-failure scenario (spec
scenario D). -/
def demoStore : Store :=
  [⟨1, 1, "a", false, 1, 0, 0, none⟩,
   ⟨2, 1, "b", false, 1, 0, 0, none⟩,
   ⟨3, 1, "c", false, 1, 0, 0, none⟩]

/-- A batch of three valid mutations against `demoStore`. -/
def demoBatch : List ClientRecord :=
  [⟨some 1, "a2", true, some 1, none⟩,
   ⟨some 2, "b2", true, some 1, none⟩,
   ⟨some 3, "c2", true, some 1, none⟩]

/-- A storage oracle that fails the `put` of record id 2 and accepts every
other put. -/
def demoPutOk : Record → Bool := fun r => !(r.id == 2)

end SyncCore

namespace ClientApp

/-- A todo item as persisted by `app.js`: `{ id, text, completed }`. -/
structure Todo where
  id : String
  text : String
  completed : Bool
  deriving DecidableEq

/-- JavaScript `Array.prototype.findIndex` over todos, with the not-found
result (-1 in JavaScript) modelled as `none`. -/
def findIndex (p : Todo → Bool) : List Todo → Option Nat
  | [] => none
  | t :: ts => if p t then some 0 else (findIndex p ts).map (· + 1)

/-- `addTodo` from `app.js` lines 89–95 (identically in the toolbar variant):
builds `{ id, text: text.trim(), completed: false }` with a freshly generated
id and `unshift`s it onto the stored list. -/
def addTodo (freshId : String) (text : String) (todos : List Todo) :
    List Todo :=
  { id := freshId, text := text.trim, completed := false } :: todos

/-- `readTodos` from `app.js` lines 7–15: `localStorage.getItem` yields
either no value or a raw string; an absent or empty raw value yields `[]`
(the `raw ? ... : []` falsiness check), and a `JSON.parse` failure is caught
and also yields `[]`. The parse function of the platform is a parameter. -/
def readTodos (parse : String → Option (List Todo)) (raw : Option String) :
    List Todo :=
  match raw with
  | none => []
  | some s => if s = "" then [] else (parse s).getD []

/-- `toggleCompleted` from `app.js` lines 97–104: find the index of the id;
if absent, return without writing; otherwise flip that item's `completed`. -/
def toggleCompleted (id : String) (todos : List Todo) : List Todo :=
  match findIndex (fun t => t.id == id) todos with
  | none => todos
  | some i =>
    match todos[i]? with
    | none => todos
    | some t => todos.set i { t with completed := !t.completed }

/-- `removeTodo` from `app.js` lines 106–111: keep every todo whose id
differs (`filter(t => t.id !== id)`). -/
def removeTodoAll (id : String) (todos : List Todo) : List Todo :=
  todos.filter (fun t => !(t.id == id))

/-- Storage-level `addTodo` of `app.js`: read (tolerantly), prepend, write
the serialized list back. -/
def addTodoS (parse : String → Option (List Todo))
    (serialize : List Todo → String) (freshId text : String)
    (raw : Option String) : Option String :=
  some (serialize (addTodo freshId text (readTodos parse raw)))

/-- Storage-level `toggleCompleted` of `app.js`: when the id is not found
the function returns before any write, leaving storage untouched. -/
def toggleCompletedS (parse : String → Option (List Todo))
    (serialize : List Todo → String) (id : String) (raw : Option String) :
    Option String :=
  match findIndex (fun t => t.id == id) (readTodos parse raw) with
  | none => raw
  | some _ => some (serialize (toggleCompleted id (readTodos parse raw)))

/-- Storage-level `removeTodo` of `app.js`: filter and write back. -/
def removeTodoS (parse : String → Option (List Todo))
    (serialize : List Todo → String) (id : String) (raw : Option String) :
    Option String :=
  some (serialize (removeTodoAll id (readTodos parse raw)))

/-- The toolbar variant's module state (`part_000`, second program): the
stored todo list plus the delete-undo buffer `{ item, index }`. -/
structure ClientState where
  todos : List Todo
  buffered : Option (Todo × Nat)
  deriving DecidableEq

/-- `removeTodo` of the toolbar variant (`part_000` lines 315–327): find the
index of the id; if absent, return early (state untouched); otherwise
`splice` the item out, persist, and buffer `{ item, index }` for undo. -/
def removeTodo (id : String) (st : ClientState) : ClientState :=
  match findIndex (fun t => t.id == id) st.todos with
  | none => st
  | some i =>
    { todos := st.todos.eraseIdx i
      buffered := (st.todos[i]?).map (fun t => (t, i)) }

/-- `undoDelete` of the toolbar variant (`part_000` lines 367–376): if a
buffered deletion exists, `splice` the item back at its original index,
persist, and clear the buffer. -/
def undoDelete (st : ClientState) : ClientState :=
  match st.buffered with
  | none => st
  | some (item, i) =>
    { todos := st.todos.insertIdx i item, buffered := none }

end ClientApp

namespace SyncCore

theorem mem_put {st : Store} {r x : Record} (h : x ∈ put st r) :
    x ∈ st ∨ x = r := by
  unfold put at h
  split at h
  · rcases List.mem_map.1 h with ⟨y, hy, hyx⟩
    by_cases hid : y.id = r.id
    · rw [if_pos hid] at hyx
      exact Or.inr hyx.symm
    · rw [if_neg hid] at hyx
      exact Or.inl (hyx ▸ hy)
  · rcases List.mem_append.1 h with h1 | h1
    · exact Or.inl h1
    · exact Or.inr (List.mem_singleton.1 h1)

theorem resolve_accept_none {now nextId ownerId : Nat} {c : ClientRecord}
    {r : Record} (h : resolve now nextId ownerId c none = Decision.accept r) :
    r = createRecord now nextId ownerId c := by
  cases hv : c.version with
  | none =>
    simp [resolve, hv] at h
    exact h.symm
  | some v =>
    by_cases h1 : v = 1
    · simp [resolve, hv, h1] at h
      exact h.symm
    · simp [resolve, hv, h1] at h

theorem resolve_accept_some {now nextId ownerId : Nat} {c : ClientRecord}
    {srec r : Record}
    (h : resolve now nextId ownerId c (some srec) = Decision.accept r) :
    srec.ownerId = ownerId ∧ c.version = some srec.version ∧
      r = applyChanges now c srec := by
  by_cases hown : srec.ownerId = ownerId
  · cases hv : c.version with
    | none => simp [resolve, hown, hv] at h
    | some v =>
      by_cases hveq : v = srec.version
      · subst hveq
        simp [resolve, hown, hv] at h
        exact ⟨hown, rfl, h.symm⟩
      · simp [resolve, hown, hv, hveq] at h
  · simp [resolve, hown] at h

theorem resolve_conflict_of_ne {now nextId ownerId : Nat} {c : ClientRecord}
    {srec : Record} (hown : srec.ownerId = ownerId)
    (hv : c.version ≠ some srec.version) :
    resolve now nextId ownerId c (some srec) = Decision.conflict srec := by
  cases hcv : c.version with
  | none => simp [resolve, hown, hcv]
  | some v =>
    have hne : v ≠ srec.version := fun he => hv (by rw [hcv, he])
    simp [resolve, hown, hcv, hne]

theorem resolve_accept_of_eq {now nextId ownerId : Nat} {c : ClientRecord}
    {srec : Record} (hown : srec.ownerId = ownerId)
    (hv : c.version = some srec.version) :
    resolve now nextId ownerId c (some srec) =
      Decision.accept (applyChanges now c srec) := by
  simp [resolve, hown, hv]

theorem resolve_auth_of_ne {now nextId ownerId : Nat} {c : ClientRecord}
    {srec : Record} (hown : srec.ownerId ≠ ownerId) :
    resolve now nextId ownerId c (some srec) = Decision.authReject srec := by
  simp [resolve, hown]

theorem resolve_accept_pos {now nextId ownerId : Nat} {c : ClientRecord}
    {s : Option Record} {r : Record}
    (h : resolve now nextId ownerId c s = Decision.accept r) :
    1 ≤ r.version := by
  cases s with
  | none =>
    rw [resolve_accept_none h]
    exact Nat.le_refl 1
  | some srec =>
    obtain ⟨-, -, hr⟩ := resolve_accept_some h
    rw [hr]
    exact Nat.le_add_left 1 srec.version

theorem resolve_accept_updatedAt {now nextId ownerId : Nat} {c : ClientRecord}
    {s : Option Record} {r : Record}
    (h : resolve now nextId ownerId c s = Decision.accept r) :
    r.updatedAt = now := by
  cases s with
  | none =>
    rw [resolve_accept_none h]
    rfl
  | some srec =>
    obtain ⟨-, -, hr⟩ := resolve_accept_some h
    rw [hr]
    rfl

theorem processItem_eq_applied {now ownerId : Nat} {putOk : Record → Bool}
    {st : CoordState} {c : ClientRecord} {r : Record}
    (hres : resolve now st.nextId ownerId c (lookupProposal st.store c) =
      Decision.accept r)
    (hput : putOk r = true) :
    processItem now ownerId putOk st c =
      ({ store := put st.store r, nextId := st.nextId + 1 },
        Outcome.applied r) := by
  simp [processItem, hres, hput]

theorem processItem_eq_storageFailed {now ownerId : Nat}
    {putOk : Record → Bool} {st : CoordState} {c : ClientRecord} {r : Record}
    (hres : resolve now st.nextId ownerId c (lookupProposal st.store c) =
      Decision.accept r)
    (hput : putOk r = false) :
    processItem now ownerId putOk st c = (st, Outcome.storageFailed r) := by
  simp [processItem, hres, hput]

theorem processItem_eq_conflicted {now ownerId : Nat} {putOk : Record → Bool}
    {st : CoordState} {c : ClientRecord} {s : Record}
    (hres : resolve now st.nextId ownerId c (lookupProposal st.store c) =
      Decision.conflict s) :
    processItem now ownerId putOk st c = (st, Outcome.conflicted s) := by
  simp [processItem, hres]

theorem processItem_eq_authRejected {now ownerId : Nat}
    {putOk : Record → Bool} {st : CoordState} {c : ClientRecord} {s : Record}
    (hres : resolve now st.nextId ownerId c (lookupProposal st.store c) =
      Decision.authReject s) :
    processItem now ownerId putOk st c = (st, Outcome.authRejected s) := by
  simp [processItem, hres]

theorem processItem_eq_invalid {now ownerId : Nat} {putOk : Record → Bool}
    {st : CoordState} {c : ClientRecord}
    (hres : resolve now st.nextId ownerId c (lookupProposal st.store c) =
      Decision.invalid) :
    processItem now ownerId putOk st c = (st, Outcome.invalidItem) := by
  simp [processItem, hres]

theorem processItem_state_eq_of_not_applied {now ownerId : Nat}
    {putOk : Record → Bool} {st : CoordState} {c : ClientRecord}
    (h : ∀ r, (processItem now ownerId putOk st c).2 ≠ Outcome.applied r) :
    (processItem now ownerId putOk st c).1 = st := by
  cases hres : resolve now st.nextId ownerId c (lookupProposal st.store c) with
  | accept r =>
    cases hput : putOk r with
    | true =>
      rw [processItem_eq_applied hres hput] at h
      exact absurd rfl (h r)
    | false =>
      rw [processItem_eq_storageFailed hres hput]
  | conflict s => rw [processItem_eq_conflicted hres]
  | authReject s => rw [processItem_eq_authRejected hres]
  | invalid => rw [processItem_eq_invalid hres]

theorem processItem_store_sub {now ownerId : Nat} {putOk : Record → Bool}
    {st : CoordState} {c : ClientRecord} {x : Record}
    (h : x ∈ (processItem now ownerId putOk st c).1.store) :
    x ∈ st.store ∨
      ∃ r, resolve now st.nextId ownerId c (lookupProposal st.store c) =
          Decision.accept r ∧ x = r := by
  cases hres : resolve now st.nextId ownerId c (lookupProposal st.store c) with
  | accept r =>
    cases hput : putOk r with
    | true =>
      rw [processItem_eq_applied hres hput] at h
      rcases mem_put h with h1 | h1
      · exact Or.inl h1
      · exact Or.inr ⟨r, rfl, h1⟩
    | false =>
      rw [processItem_eq_storageFailed hres hput] at h
      exact Or.inl h
  | conflict s =>
    rw [processItem_eq_conflicted hres] at h
    exact Or.inl h
  | authReject s =>
    rw [processItem_eq_authRejected hres] at h
    exact Or.inl h
  | invalid =>
    rw [processItem_eq_invalid hres] at h
    exact Or.inl h

end SyncCore

namespace SyncCore

theorem processBatch_nil (now ownerId : Nat) (putOk : Record → Bool)
    (st : CoordState) : processBatch now ownerId putOk st [] = (st, []) := rfl

theorem processBatch_cons (now ownerId : Nat) (putOk : Record → Bool)
    (st : CoordState) (c : ClientRecord) (rest : List ClientRecord) :
    processBatch now ownerId putOk st (c :: rest) =
      ((processBatch now ownerId putOk
          (processItem now ownerId putOk st c).1 rest).1,
        (processItem now ownerId putOk st c).2 ::
          (processBatch now ownerId putOk
            (processItem now ownerId putOk st c).1 rest).2) := rfl

theorem processBatch_length (now ownerId : Nat) (putOk : Record → Bool) :
    ∀ (batch : List ClientRecord) (st : CoordState),
      ((processBatch now ownerId putOk st batch).2).length = batch.length
  | [], _ => rfl
  | c :: rest, st => by
    rw [processBatch_cons]
    simp [processBatch_length now ownerId putOk rest]

theorem processBatch_store_sub (now ownerId : Nat) (putOk : Record → Bool) :
    ∀ (batch : List ClientRecord) (st : CoordState) (x : Record),
      x ∈ (processBatch now ownerId putOk st batch).1.store →
      x ∈ st.store ∨ x.updatedAt = now
  | [], _, _, h => Or.inl h
  | c :: rest, st, x, h => by
    rw [processBatch_cons] at h
    rcases processBatch_store_sub now ownerId putOk rest
        (processItem now ownerId putOk st c).1 x h with h1 | h1
    · rcases processItem_store_sub h1 with h2 | ⟨r, hres, hx⟩
      · exact Or.inl h2
      · exact Or.inr (hx ▸ resolve_accept_updatedAt hres)
    · exact Or.inr h1

theorem processBatch_store_version_pos (now ownerId : Nat)
    (putOk : Record → Bool) :
    ∀ (batch : List ClientRecord) (st : CoordState),
      (∀ x ∈ st.store, 1 ≤ x.version) →
      ∀ x ∈ (processBatch now ownerId putOk st batch).1.store, 1 ≤ x.version
  | [], _, hpos, x, hx => hpos x hx
  | c :: rest, st, hpos, x, hx => by
    rw [processBatch_cons] at hx
    refine processBatch_store_version_pos now ownerId putOk rest
        (processItem now ownerId putOk st c).1 ?_ x hx
    intro y hy
    rcases processItem_store_sub hy with h2 | ⟨r, hres, hyr⟩
    · exact hpos y h2
    · exact hyr ▸ resolve_accept_pos hres

theorem mem_listUpdatedSince {st : Store} {ownerId ts : Nat}
    {excl : List Nat} {r : Record} :
    r ∈ listUpdatedSince st ownerId ts excl ↔
      r ∈ st ∧ r.ownerId = ownerId ∧ ts < r.updatedAt ∧ r.id ∉ excl := by
  unfold listUpdatedSince
  rw [List.mem_insertionSort, List.mem_filter]
  simp [and_assoc]

theorem sorted_listUpdatedSince (st : Store) (ownerId ts : Nat)
    (excl : List Nat) :
    List.Sorted recLE (listUpdatedSince st ownerId ts excl) :=
  List.sorted_insertionSort recLE _

theorem sync_eq_ok {now ownerId : Nat} {putOk : Record → Bool}
    {maxBatch : Nat} {st : CoordState} {batch : List ClientRecord}
    {lastSync : Nat} (h : batch.length ≤ maxBatch) :
    sync now ownerId putOk maxBatch st batch lastSync =
      Except.ok
        ({ applied := appliedIds (processBatch now ownerId putOk st batch).2
           conflicts :=
             conflictReports (processBatch now ownerId putOk st batch).2
           serverChanges :=
             listUpdatedSince (processBatch now ownerId putOk st batch).1.store
               ownerId lastSync
               (appliedIds (processBatch now ownerId putOk st batch).2)
           syncTimestamp := now },
          (processBatch now ownerId putOk st batch).1) := by
  unfold sync
  rw [if_neg (by omega)]

theorem sync_ok_inv {now ownerId : Nat} {putOk : Record → Bool}
    {maxBatch : Nat} {st : CoordState} {batch : List ClientRecord}
    {lastSync : Nat} {resp : SyncResponse} {st' : CoordState}
    (h : sync now ownerId putOk maxBatch st batch lastSync =
      Except.ok (resp, st')) :
    resp =
      { applied := appliedIds (processBatch now ownerId putOk st batch).2
        conflicts :=
          conflictReports (processBatch now ownerId putOk st batch).2
        serverChanges :=
          listUpdatedSince (processBatch now ownerId putOk st batch).1.store
            ownerId lastSync
            (appliedIds (processBatch now ownerId putOk st batch).2)
        syncTimestamp := now } ∧
      st' = (processBatch now ownerId putOk st batch).1 := by
  unfold sync at h
  split at h
  · exact Except.noConfusion h
  · injection h with h1
    exact ⟨(congrArg Prod.fst h1).symm, (congrArg Prod.snd h1).symm⟩

end SyncCore

namespace SyncCore

/-- Claim C1: for every record managed by the sync core, the version counter
is a positive integer that equals 1 at creation and increases by exactly 1 on
each accepted mutation (soft-delete and restore included, since they are
ordinary field changes); it never decreases and never skips a value, and no
rejected or failed mutation changes any stored record. -/
theorem version_counter_discipline
    (now nextId ownerId : Nat) (c : ClientRecord) (putOk : Record → Bool)
    (st : CoordState) :
    (∀ r, resolve now nextId ownerId c none = Decision.accept r →
       r.version = 1) ∧
    (∀ srec r,
       resolve now nextId ownerId c (some srec) = Decision.accept r →
       r.version = srec.version + 1 ∧ srec.version < r.version) ∧
    (∀ s r, resolve now nextId ownerId c s = Decision.accept r →
       1 ≤ r.version) ∧
    ((∀ r, (processItem now ownerId putOk st c).2 ≠ Outcome.applied r) →
       (processItem now ownerId putOk st c).1 = st) ∧
    ((∀ x ∈ st.store, 1 ≤ x.version) →
       ∀ x ∈ (processItem now ownerId putOk st c).1.store, 1 ≤ x.version) := by
  refine ⟨?_, ?_, ?_, ?_, ?_⟩
  · intro r h
    rw [resolve_accept_none h]
    rfl
  · intro srec r h
    obtain ⟨-, -, hr⟩ := resolve_accept_some h
    subst hr
    exact ⟨rfl, Nat.lt_succ_self _⟩
  · intro s r h
    exact resolve_accept_pos h
  · exact processItem_state_eq_of_not_applied
  · intro hpos x hx
    rcases processItem_store_sub hx with h1 | ⟨r, hres, hxr⟩
    · exact hpos x h1
    · exact hxr ▸ resolve_accept_pos hres

/-- Concrete instantiation of the claim C1 theorem: a creation is accepted
with version 1. -/
theorem version_counter_discipline_check :
    (createRecord 3 9 1 ⟨none, "t", false, none, none⟩).version = 1 :=
  (version_counter_discipline 3 9 1 ⟨none, "t", false, none, none⟩
      (fun _ => true) ⟨[], 0⟩).1
    (createRecord 3 9 1 ⟨none, "t", false, none, none⟩) rfl

/-- Claim C2: when the client's believed version differs from the stored
record's version, the resolver returns a conflict paired with the
authoritative server record and the coordinator leaves the stored state
completely unchanged; resubmitting an already-applied mutation with its
now-stale version yields a conflict, never a second apply. -/
theorem conflict_surfaced_and_idempotent
    (now now2 nextId nextId2 ownerId : Nat) (c : ClientRecord)
    (srec : Record) (hown : srec.ownerId = ownerId) :
    (c.version ≠ some srec.version →
       resolve now nextId ownerId c (some srec) = Decision.conflict srec) ∧
    (∀ (putOk : Record → Bool) (st : CoordState),
       c.id = some srec.id → getRecord st.store srec.id = some srec →
       c.version ≠ some srec.version →
       processItem now ownerId putOk st c = (st, Outcome.conflicted srec)) ∧
    (∀ r, resolve now nextId ownerId c (some srec) = Decision.accept r →
       resolve now2 nextId2 ownerId c (some r) = Decision.conflict r) := by
  refine ⟨?_, ?_, ?_⟩
  · intro hv
    exact resolve_conflict_of_ne hown hv
  · intro putOk st hid hget hv
    have hlook : lookupProposal st.store c = some srec := by
      unfold lookupProposal
      rw [hid]
      exact hget
    have hres : resolve now st.nextId ownerId c (lookupProposal st.store c) =
        Decision.conflict srec := by
      rw [hlook]
      exact resolve_conflict_of_ne hown hv
    exact processItem_eq_conflicted hres
  · intro r h
    obtain ⟨-, hcv, hr⟩ := resolve_accept_some h
    have hown2 : r.ownerId = ownerId := by
      rw [hr]
      exact hown
    refine resolve_conflict_of_ne hown2 ?_
    intro he
    rw [hcv] at he
    have hv2 : srec.version = r.version := Option.some.inj he
    rw [hr] at hv2
    exact absurd hv2 (by simp [applyChanges])
  
/-- Concrete instantiation of the claim C2 theorem: a stale resubmission
(believed version 2 against stored version 3) is surfaced as a conflict
carrying the authoritative server record. -/
theorem conflict_surfaced_and_idempotent_check :
    resolve 0 0 1 ⟨some 7, "n", true, some 2, none⟩
        (some ⟨7, 1, "s", false, 3, 0, 10, none⟩) =
      Decision.conflict ⟨7, 1, "s", false, 3, 0, 10, none⟩ :=
  (conflict_surfaced_and_idempotent 0 0 0 0 1
      ⟨some 7, "n", true, some 2, none⟩ ⟨7, 1, "s", false, 3, 0, 10, none⟩
      rfl).1 (by decide)

/-- Claim C3: the resolver's accept branches satisfy their postconditions:
with no stored record and an absent version or version 1, the mutation is
accepted as a creation with version 1 (a new id assigned when absent); with
a stored record S and a matching believed version, the mutation is accepted
by applying the client's field changes onto S with version S.version + 1 and
updatedAt set to the current time. -/
theorem resolver_accept_postconditions
    (now nextId ownerId : Nat) (c : ClientRecord) (srec : Record) :
    ((c.version = none ∨ c.version = some 1) →
       ∃ r, resolve now nextId ownerId c none = Decision.accept r ∧
         r.version = 1 ∧ r.updatedAt = now ∧ r.createdAt = now ∧
         r.ownerId = ownerId ∧ r.text = c.text ∧ r.completed = c.completed ∧
         (c.id = none → r.id = nextId) ∧
         (∀ i, c.id = some i → r.id = i)) ∧
    (srec.ownerId = ownerId → c.version = some srec.version →
       ∃ r, resolve now nextId ownerId c (some srec) = Decision.accept r ∧
         r.version = srec.version + 1 ∧ r.updatedAt = now ∧
         r.text = c.text ∧ r.completed = c.completed ∧
         r.deletedAt = c.deletedAt ∧ r.id = srec.id ∧
         r.ownerId = srec.ownerId ∧ r.createdAt = srec.createdAt) := by
  constructor
  · intro hv
    refine ⟨createRecord now nextId ownerId c, ?_, rfl, rfl, rfl, rfl, rfl,
      rfl, ?_, ?_⟩
    · rcases hv with hv | hv
      · simp [resolve, hv]
      · simp [resolve, hv]
    · intro hid
      simp [createRecord, hid]
    · intro i hid
      simp [createRecord, hid]
  · intro hown hv
    exact ⟨applyChanges now c srec, resolve_accept_of_eq hown hv, rfl, rfl,
      rfl, rfl, rfl, rfl, rfl, rfl⟩

/-- Concrete instantiation of the claim C3 theorem: scenario A, creating a
record with no version is accepted with version 1. -/
theorem resolver_accept_postconditions_check :
    ∃ r, resolve 4 11 2 ⟨none, "Buy milk", false, none, none⟩ none =
        Decision.accept r ∧
      r.version = 1 ∧ r.updatedAt = 4 ∧ r.createdAt = 4 ∧ r.ownerId = 2 ∧
      r.text = "Buy milk" ∧ r.completed = false ∧
      (ClientRecord.id ⟨none, "Buy milk", false, none, none⟩ = none →
        r.id = 11) ∧
      (∀ i, ClientRecord.id ⟨none, "Buy milk", false, none, none⟩ = some i →
        r.id = i) :=
  (resolver_accept_postconditions 4 11 2
      ⟨none, "Buy milk", false, none, none⟩
      ⟨0, 0, "", false, 1, 0, 0, none⟩).1 (Or.inl rfl)

/-- Claim C7: a client mutation referencing a record owned by a different
user is rejected as an authorization failure distinct from an ordinary
version conflict: it is never applied, never surfaced as a mere conflict,
never silently dropped (a distinct authorization outcome is reported), and
the other user's record is left unchanged. -/
theorem auth_reject_distinct
    (now nextId ownerId : Nat) (c : ClientRecord) (srec : Record)
    (hown : srec.ownerId ≠ ownerId) :
    resolve now nextId ownerId c (some srec) = Decision.authReject srec ∧
    (∀ s, resolve now nextId ownerId c (some srec) ≠ Decision.conflict s) ∧
    (∀ r, resolve now nextId ownerId c (some srec) ≠ Decision.accept r) ∧
    (∀ (putOk : Record → Bool) (st : CoordState),
       c.id = some srec.id → getRecord st.store srec.id = some srec →
       processItem now ownerId putOk st c = (st, Outcome.authRejected srec)) := by
  have h1 : resolve now nextId ownerId c (some srec) =
      Decision.authReject srec := resolve_auth_of_ne hown
  refine ⟨h1, ?_, ?_, ?_⟩
  · intro s hs
    rw [h1] at hs
    exact Decision.noConfusion hs
  · intro r hr
    rw [h1] at hr
    exact Decision.noConfusion hr
  · intro putOk st hid hget
    have hlook : lookupProposal st.store c = some srec := by
      unfold lookupProposal
      rw [hid]
      exact hget
    have hres : resolve now st.nextId ownerId c (lookupProposal st.store c) =
        Decision.authReject srec := by
      rw [hlook]
      exact resolve_auth_of_ne hown
    exact processItem_eq_authRejected hres

/-- Concrete instantiation of the claim C7 theorem: a mutation against a
record owned by user 2, submitted by user 1, is an authorization reject. -/
theorem auth_reject_distinct_check :
    resolve 0 0 1 ⟨some 7, "n", true, some 3, none⟩
        (some ⟨7, 2, "s", false, 3, 0, 10, none⟩) =
      Decision.authReject ⟨7, 2, "s", false, 3, 0, 10, none⟩ :=
  (auth_reject_distinct 0 0 1 ⟨some 7, "n", true, some 3, none⟩
      ⟨7, 2, "s", false, 3, 0, 10, none⟩ (by decide)).1

end SyncCore

namespace SyncCore

/-- Claim C4: for every sync call with watermark `lastSync = T`, the
returned `serverChanges` contains exactly the owner's records (soft-deleted
ones included, since no deletion filter applies) whose `updatedAt` is
strictly greater than `T` and whose id is not in `applied`; no record with
`updatedAt ≤ T` appears, and the sequence is ordered by `updatedAt`
ascending with ties broken by id ascending. -/
theorem serverChanges_exact_and_sorted
    (now ownerId maxBatch lastSync : Nat) (putOk : Record → Bool)
    (st : CoordState) (batch : List ClientRecord) (resp : SyncResponse)
    (st' : CoordState)
    (h : sync now ownerId putOk maxBatch st batch lastSync =
      Except.ok (resp, st')) :
    (∀ r, r ∈ resp.serverChanges ↔
       r ∈ st'.store ∧ r.ownerId = ownerId ∧ lastSync < r.updatedAt ∧
         r.id ∉ resp.applied) ∧
    List.Sorted recLE resp.serverChanges := by
  obtain ⟨hresp, hst⟩ := sync_ok_inv h
  subst hresp
  subst hst
  constructor
  · intro r
    exact mem_listUpdatedSince
  · exact sorted_listUpdatedSince _ _ _ _

/-- Concrete instantiation of the claim C4 theorem: a one-record sync
result is sorted under the updatedAt-then-id order. -/
theorem serverChanges_exact_and_sorted_check :
    List.Sorted recLE [(⟨9, 1, "z", false, 2, 0, 5, none⟩ : Record)] :=
  (serverChanges_exact_and_sorted 7 1 10 3 (fun _ => true)
      ⟨[⟨9, 1, "z", false, 2, 0, 5, none⟩], 0⟩ []
      ⟨[], [], [⟨9, 1, "z", false, 2, 0, 5, none⟩], 7⟩
      ⟨[⟨9, 1, "z", false, 2, 0, 5, none⟩], 0⟩ rfl).2

/-- Claim C5: the returned `syncTimestamp` is the server time captured at
the start of mutation application: it equals the `now` passed at the start
of step 2, every record mutated by the call is stamped with that very time
(never a later one), and any record whose mutation lands after the
watermark appears in the `serverChanges` of the client's next sync round
when the returned `syncTimestamp` is used as its `lastSync`. -/
theorem syncTimestamp_start_watermark
    (now now2 ownerId maxBatch lastSync : Nat) (putOk putOk2 : Record → Bool)
    (st st' st2 st3 : CoordState) (batch : List ClientRecord)
    (resp resp2 : SyncResponse)
    (h : sync now ownerId putOk maxBatch st batch lastSync =
      Except.ok (resp, st')) :
    resp.syncTimestamp = now ∧
    (∀ x ∈ st'.store, x ∈ st.store ∨ x.updatedAt = resp.syncTimestamp) ∧
    (∀ r, r ∈ st2.store → r.ownerId = ownerId →
       resp.syncTimestamp < r.updatedAt →
       sync now2 ownerId putOk2 maxBatch st2 [] resp.syncTimestamp =
         Except.ok (resp2, st3) →
       r ∈ resp2.serverChanges) := by
  obtain ⟨hresp, hst⟩ := sync_ok_inv h
  subst hresp
  subst hst
  refine ⟨rfl, ?_, ?_⟩
  · intro x hx
    exact processBatch_store_sub now ownerId putOk batch st x hx
  · intro r hr hrown hrupd h2
    obtain ⟨hresp2, -⟩ := sync_ok_inv h2
    subst hresp2
    refine mem_listUpdatedSince.2 ⟨hr, hrown, hrupd, ?_⟩
    intro hmem
    exact List.not_mem_nil r.id hmem

/-- Concrete instantiation of the claim C5 theorem: the returned watermark
of a concrete sync call is the time captured at the start of the call. -/
theorem syncTimestamp_start_watermark_check :
    (SyncResponse.mk [] [] [⟨9, 1, "z", false, 2, 0, 5, none⟩]
        7).syncTimestamp = 7 :=
  (syncTimestamp_start_watermark 7 0 1 10 3 (fun _ => true) (fun _ => true)
      ⟨[⟨9, 1, "z", false, 2, 0, 5, none⟩], 0⟩
      ⟨[⟨9, 1, "z", false, 2, 0, 5, none⟩], 0⟩ ⟨[], 0⟩ ⟨[], 0⟩ []
      ⟨[], [], [⟨9, 1, "z", false, 2, 0, 5, none⟩], 7⟩
      ⟨[], [], [], 0⟩ rfl).1

/-- Claim C6: a single item's failure (a conflict or a storage failure on
put) does not abort a sync batch: every item of the batch yields its own
outcome, a storage-failed item leaves the server state unchanged (so its
record neither enters `applied` nor advances its version), a batch within
the size bound always produces a response with `serverChanges` computed,
and in the concrete batch of 3 where item 2 fails storage, items 1 and 3
are applied while item 2's record is untouched. -/
theorem partial_failure_isolation
    (now ownerId maxBatch : Nat) (putOk : Record → Bool) :
    (∀ (st : CoordState) (batch : List ClientRecord),
       ((processBatch now ownerId putOk st batch).2).length = batch.length) ∧
    (∀ (st : CoordState) (c : ClientRecord) (r : Record),
       (processItem now ownerId putOk st c).2 = Outcome.storageFailed r →
       (processItem now ownerId putOk st c).1 = st) ∧
    (∀ (st : CoordState) (batch : List ClientRecord) (lastSync : Nat),
       batch.length ≤ maxBatch →
       sync now ownerId putOk maxBatch st batch lastSync =
         Except.ok
           ({ applied :=
                appliedIds (processBatch now ownerId putOk st batch).2
              conflicts :=
                conflictReports (processBatch now ownerId putOk st batch).2
              serverChanges :=
                listUpdatedSince
                  (processBatch now ownerId putOk st batch).1.store ownerId
                  lastSync
                  (appliedIds (processBatch now ownerId putOk st batch).2)
              syncTimestamp := now },
             (processBatch now ownerId putOk st batch).1)) ∧
    (appliedIds (processBatch 5 1 demoPutOk ⟨demoStore, 100⟩ demoBatch).2 =
        [1, 3] ∧
      ((processBatch 5 1 demoPutOk ⟨demoStore, 100⟩ demoBatch).2).length =
        3 ∧
      getRecord (processBatch 5 1 demoPutOk ⟨demoStore, 100⟩
          demoBatch).1.store 2 =
        getRecord demoStore 2) := by
  refine ⟨?_, ?_, ?_, ?_⟩
  · intro st batch
    exact processBatch_length now ownerId putOk batch st
  · intro st c r h
    cases hres : resolve now st.nextId ownerId c (lookupProposal st.store c) with
    | accept r2 =>
      cases hput : putOk r2 with
      | true =>
        rw [processItem_eq_applied hres hput] at h
        exact Outcome.noConfusion h
      | false =>
        rw [processItem_eq_storageFailed hres hput]
    | conflict s =>
      rw [processItem_eq_conflicted hres] at h
      exact Outcome.noConfusion h
    | authReject s =>
      rw [processItem_eq_authRejected hres] at h
      exact Outcome.noConfusion h
    | invalid =>
      rw [processItem_eq_invalid hres] at h
      exact Outcome.noConfusion h
  · intro st batch lastSync hlen
    exact sync_eq_ok hlen
  · exact ⟨by decide, by decide, by decide⟩

/-- Concrete instantiation of the claim C6 theorem: the scenario batch (item
2 failing storage) still yields a full response with server changes. -/
theorem partial_failure_isolation_check :
    sync 5 1 demoPutOk 10 ⟨demoStore, 100⟩ demoBatch 3 =
      Except.ok
        ({ applied :=
             appliedIds (processBatch 5 1 demoPutOk ⟨demoStore, 100⟩
               demoBatch).2
           conflicts :=
             conflictReports (processBatch 5 1 demoPutOk ⟨demoStore, 100⟩
               demoBatch).2
           serverChanges :=
             listUpdatedSince
               (processBatch 5 1 demoPutOk ⟨demoStore, 100⟩ demoBatch).1.store
               1 3
               (appliedIds (processBatch 5 1 demoPutOk ⟨demoStore, 100⟩
                 demoBatch).2)
           syncTimestamp := 5 },
          (processBatch 5 1 demoPutOk ⟨demoStore, 100⟩ demoBatch).1) :=
  (partial_failure_isolation 5 1 10 demoPutOk).2.2.1 ⟨demoStore, 100⟩
    demoBatch 3 (by decide)

end SyncCore

namespace ClientApp

theorem findIndex_lt_length (p : Todo → Bool) :
    ∀ (l : List Todo) (i : Nat), findIndex p l = some i → i < l.length
  | [], _, h => Option.noConfusion h
  | t :: ts, i, h => by
    simp only [findIndex] at h
    split at h
    · injection h with h1
      simp only [List.length_cons]
      omega
    · cases hf : findIndex p ts with
      | none =>
        rw [hf] at h
        exact Option.noConfusion h
      | some j =>
        rw [hf] at h
        simp only [Option.map_some'] at h
        injection h with h1
        have hlt := findIndex_lt_length p ts j hf
        simp only [List.length_cons]
        omega

theorem insertIdx_getElem_eraseIdx {α : Type} :
    ∀ (l : List α) (i : Nat) (x : α), l[i]? = some x →
      (l.eraseIdx i).insertIdx i x = l
  | [], _, _, h => by simp at h
  | t :: ts, 0, x, h => by
    simp only [List.getElem?_cons_zero, Option.some.injEq] at h
    simp [List.eraseIdx, h]
  | t :: ts, i + 1, x, h => by
    simp only [List.getElem?_cons_succ] at h
    simp only [List.eraseIdx_cons_succ, List.insertIdx_succ_cons]
    rw [insertIdx_getElem_eraseIdx ts i x h]

/-- Claim C8: for every stored todo list and every input text (the submit
handler only calls `addTodo` when the trimmed text is non-empty, and the
property holds for every text), `addTodo` stores a list whose first element
is a new todo carrying the trimmed text, `completed = false` and the
freshly generated id, and whose remaining elements are exactly the
previously stored todos, unchanged and in order. -/
theorem addTodo_prepends_trimmed (freshId text : String)
    (todos : List Todo) :
    (addTodo freshId text todos).head? =
      some { id := freshId, text := text.trim, completed := false } ∧
    (addTodo freshId text todos).tail = todos :=
  ⟨rfl, rfl⟩

/-- Claim C9: in the toolbar variant, deletion followed by undo with no
intervening mutation is a round-trip: when the id occurs at index `i`,
`removeTodo` stores the list with that element spliced out and `undoDelete`
restores the stored list exactly, the removed item re-inserted at index
`i`; when the id does not occur, `removeTodo` leaves the state unchanged. -/
theorem remove_undo_roundtrip (st : ClientState) (id : String) :
    (∀ i, findIndex (fun t => t.id == id) st.todos = some i →
       (removeTodo id st).todos = st.todos.eraseIdx i ∧
       (undoDelete (removeTodo id st)).todos = st.todos ∧
       (undoDelete (removeTodo id st)).buffered = none) ∧
    (findIndex (fun t => t.id == id) st.todos = none →
       removeTodo id st = st) := by
  constructor
  · intro i hf
    have hlt : i < st.todos.length := findIndex_lt_length _ _ _ hf
    have hget : st.todos[i]? = some st.todos[i] :=
      List.getElem?_eq_getElem hlt
    have hrem : removeTodo id st =
        { todos := st.todos.eraseIdx i,
          buffered := some (st.todos[i], i) } := by
      unfold removeTodo
      rw [hf]
      show ClientState.mk (st.todos.eraseIdx i)
          (Option.map (fun t => (t, i)) st.todos[i]?) = _
      rw [hget]
      rfl
    refine ⟨by rw [hrem], ?_, ?_⟩
    · rw [hrem]
      exact insertIdx_getElem_eraseIdx st.todos i _ hget
    · rw [hrem]
      rfl
  · intro hf
    unfold removeTodo
    rw [hf]

/-- Concrete instantiation of the claim C9 theorem: removing the only todo
and undoing restores the stored list. -/
theorem remove_undo_roundtrip_check :
    (undoDelete (removeTodo "a" ⟨[⟨"a", "x", false⟩], none⟩)).todos =
      [(⟨"a", "x", false⟩ : Todo)] :=
  ((remove_undo_roundtrip ⟨[⟨"a", "x", false⟩], none⟩ "a").1 0
    (by decide)).2.1

/-- Claim C10: `readTodos` is total on arbitrary storage state: when the
todos key is absent or its raw value fails to parse, it returns the empty
list instead of propagating an error, and consequently each public
operation of the client is defined on corrupt or empty storage: `addTodo`
stores exactly the new todo, `toggleCompleted` returns before writing, and
`removeTodo` stores the empty list. -/
theorem readTodos_total_on_corrupt_storage
    (parse : String → Option (List Todo)) (serialize : List Todo → String)
    (freshId text id : String) (raw : Option String)
    (h : raw = none ∨ ∃ s, raw = some s ∧ parse s = none) :
    readTodos parse raw = [] ∧
    addTodoS parse serialize freshId text raw =
      some (serialize [Todo.mk freshId text.trim false]) ∧
    toggleCompletedS parse serialize id raw = raw ∧
    removeTodoS parse serialize id raw = some (serialize []) := by
  have hread : readTodos parse raw = [] := by
    rcases h with h | ⟨s, hs, hp⟩
    · rw [h]
      rfl
    · rw [hs]
      simp [readTodos, hp]
  refine ⟨hread, ?_, ?_, ?_⟩
  · unfold addTodoS
    rw [hread]
    rfl
  · unfold toggleCompletedS
    rw [hread]
    rfl
  · unfold removeTodoS
    rw [hread]
    rfl

/-- Concrete instantiation of the claim C10 theorem on unparseable
storage contents. -/
theorem readTodos_total_on_corrupt_storage_check :
    readTodos (fun _ => none) (some "oops") = [] ∧
    addTodoS (fun _ => none) (fun _ => "s") "i1" "milk" (some "oops") =
      some "s" ∧
    toggleCompletedS (fun _ => none) (fun _ => "s") "d1" (some "oops") =
      some "oops" ∧
    removeTodoS (fun _ => none) (fun _ => "s") "d1" (some "oops") =
      some "s" :=
  readTodos_total_on_corrupt_storage (fun _ => none) (fun _ => "s") "i1"
    "milk" "d1" (some "oops") (Or.inr ⟨"oops", rfl, rfl⟩)

end ClientApp
